import Mathlib

/-!
Shallow embedding of the SafeOperations C library (src/SafeOps.c, include/SafeOps.h).

Modelling conventions:
* A byte of memory is a `Nat` (value of the C `char` / `wchar_t` read as unsigned).
* A writable buffer region is a `List Nat`: the bytes reachable from the pointer,
  in order.  A write produces a new list; "the destination is unchanged" is
  equality of the lists.
* A NUL-terminated C string argument that is only read (a source, a needle, the
  old/new substrings) is modelled by its content: the list of bytes strictly
  before the terminating 0.  `strlen` of such a string is `List.length`.
* `size_t` values are `Nat`; where the C source performs wrapping `size_t`
  arithmetic the model takes the result `% sizeModulus` explicitly.
* The thread-local error cell `g_lastError` written by `SetError` is modelled by
  an `Option SafeOpsError` field in each operation result: `some e` means the
  call performed `SetError(e, _)` (last write wins), `none` means the call never
  touched the cell.  Writes of C `errno` are modelled the same way with `Errno`.
* NULL-pointer arguments are not modelled: every pointer parameter is a value.
  The NULL-check branches of the C source are therefore omitted; all modelled
  behaviour is conditional on the pointers being valid, which the claims assume.
* The allocator (`calloc`/`malloc`) is modelled as always succeeding once the
  size checks of `SafeMalloc` pass.
-/

/-- The `SafeOpsError` enumeration of include/SafeOps.h. -/
inductive SafeOpsError where
  | ok
  | nullPointer
  | outOfBounds
  | overflow
  | invalidParam
  | allocationFailed
  | fileAccess
  | overlap
  | unknown
deriving DecidableEq, Repr

/-- The `errno` values the source assigns (`EINVAL` via `SAFE_RETURN_VAL_IF_FAIL`,
`EOVERFLOW` on size failures). -/
inductive Errno where
  | einval
  | eoverflow
deriving DecidableEq, Repr

/-- `2 ^ 64`: the modulus of `size_t` arithmetic on the modelled 64-bit platform. -/
def sizeModulus : Nat := 2 ^ 64

/-- `SIZE_MAX`, the largest `size_t` value. -/
def sizeMax : Nat := 2 ^ 64 - 1

/-- `sizeof(size_t)` on the modelled platform. -/
def sizeofSizeT : Nat := 8

/-- `INT_MAX` for the modelled 32-bit `int`. -/
def intMax : Int := 2 ^ 31 - 1

/-- `INT_MIN` for the modelled 32-bit `int`. -/
def intMin : Int := -(2 ^ 31)

/-- One byte store `dest[i] = v` on a buffer region. -/
def store (dest : List Nat) (i : Nat) (v : Nat) : List Nat :=
  dest.take i ++ v :: dest.drop (i + 1)

/-- `memcpy(dest + off, bytes, bytes.length)`: overwrite the region starting at
offset `off` with `bytes`, keeping the rest of `dest`. -/
def memcpyAt (dest : List Nat) (off : Nat) (bytes : List Nat) : List Nat :=
  dest.take off ++ bytes ++ dest.drop (off + bytes.length)

/-- The bytes written by `strncpy(dest, src, n)` where `src` is the content of a
NUL-terminated string: the first `min n src.length` source bytes, zero-padded to
`n` bytes when the source is shorter. -/
def strncpyBytes (src : List Nat) (n : Nat) : List Nat :=
  src.take n ++ List.replicate (n - src.length) 0

/-- The scan loop of `SafeStrLen`/`SafeWStrLen`:
`len = 0; while (len < maxLen && str[len] != 0) len++;` — the resulting `len`.
The recursion follows the region list; reaching the end of the modelled region
behaves like reading a 0 byte. -/
def strScan (r : List Nat) (maxLen : Nat) : Nat :=
  match r with
  | [] => 0
  | b :: rest => if maxLen = 0 then 0 else if b = 0 then 0 else strScan rest (maxLen - 1) + 1

/-- Result of `SafeStrLen`/`SafeWStrLen`.  `len` is the final value of the scan
counter (the C source writes `*outLen` only when `ok` is true). -/
structure LenRes where
  ok : Bool
  len : Nat
  errW : Option SafeOpsError
deriving DecidableEq, Repr

/-- `SafeStrLen(str, maxLen, outLen)` (src/SafeOps.c lines 162-180), on the
region `r`.  After the scan the source tests `len == maxLen && str[len] != 0`
— note the read at index `maxLen`, one past the scan window — and fails with
`SAFEOPS_ERR_OUT_OF_BOUNDS` in that case. -/
def safeStrLen (r : List Nat) (maxLen : Nat) : LenRes :=
  let len := strScan r maxLen
  if len = maxLen ∧ r.getD len 0 ≠ 0 then ⟨false, len, some .outOfBounds⟩
  else ⟨true, len, none⟩

/-- `SafeWStrLen(str, maxLen, outLen)` (src/SafeOps.c lines 182-201): identical
loop and checks over wide characters, modelled as `Nat` elements with
terminator 0. -/
def safeWStrLen (r : List Nat) (maxLen : Nat) : LenRes :=
  let len := strScan r maxLen
  if len = maxLen ∧ r.getD len 0 ≠ 0 then ⟨false, len, some .outOfBounds⟩
  else ⟨true, len, none⟩

/-- `strstr(hay, needle)` on string contents: the offset of the first occurrence
of `needle` in `hay`, `none` when there is none. -/
def strstrIdx (hay needle : List Nat) : Option Nat :=
  if needle.isPrefixOf hay then some 0
  else
    match hay with
    | [] => none
    | _ :: t => (strstrIdx t needle).map (· + 1)

/-- The counting loop of `SafeStrReplace` (src/SafeOps.c lines 335-340):
`while ((pos = strstr(pos, oldStr)) != NULL) { count++; pos += oldLen; }`,
written with explicit fuel (each iteration consumes at least one byte of `s`
when `old` is nonempty, so `s.length + 1` fuel suffices). -/
def countOccF : Nat → List Nat → List Nat → Nat
  | 0, _, _ => 0
  | fuel + 1, s, old =>
    match strstrIdx s old with
    | none => 0
    | some i => countOccF fuel (s.drop (i + old.length)) old + 1

/-- Number of non-overlapping occurrences counted by `SafeStrReplace`. -/
def countOcc (s old : List Nat) : Nat := countOccF (s.length + 1) s old

/-- The replacement-building loop of `SafeStrReplace` (src/SafeOps.c lines
362-379): copy the chunk before each match, then the replacement, advance past
the match, and finally copy the remaining tail.  Fuel as in `countOccF`. -/
def replaceBuildF : Nat → List Nat → List Nat → List Nat → List Nat
  | 0, s, _, _ => s
  | fuel + 1, s, old, new =>
    match strstrIdx s old with
    | none => s
    | some i => s.take i ++ new ++ replaceBuildF fuel (s.drop (i + old.length)) old new

/-- The string content built into the scratch buffer by `SafeStrReplace`. -/
def replaceBuild (s old new : List Nat) : List Nat :=
  replaceBuildF (s.length + 1) s old new

/-- Concatenation of chunks separated by `sep`: the shape of a string containing
exactly `chunks.length - 1` counted occurrences of `sep`. -/
def joinWith (sep : List Nat) : List (List Nat) → List Nat
  | [] => []
  | [c] => c
  | c :: c2 :: cs => c ++ sep ++ joinWith sep (c2 :: cs)

/-- Index of the first terminator (0 byte) of a region, `r.length` when the
region holds none: the specification-side meaning of a bounded length scan. -/
def firstZero (r : List Nat) : Nat := (r.takeWhile (fun b => b ≠ 0)).length

/-- `SafeMalloc(size)` (src/SafeOps.c lines 66-86): zero size fails with
`SAFEOPS_ERR_INVALID_PARAM`, `size > SIZE_MAX - sizeof(size_t)` fails with
`SAFEOPS_ERR_OVERFLOW`, otherwise `calloc(1, size)` yields a zero-initialised
region (the allocator is modelled as succeeding).  First component: the
returned buffer; second: the `SetError` write. -/
def safeMalloc (size : Nat) : Option (List Nat) × Option SafeOpsError :=
  if size = 0 then (none, some .invalidParam)
  else if sizeMax - sizeofSizeT < size then (none, some .overflow)
  else (some (List.replicate size 0), none)

/-- `SafeFree(ptrRef)` (src/SafeOps.c lines 108-116) acting on the handle cell
`*ptrRef`: an empty handle is an early return, a full one is passed to `free`
and the cell is cleared.  Second component: whether `free` was invoked. -/
def safeFree (h : Option (List Nat)) : Option (List Nat) × Bool :=
  match h with
  | none => (none, false)
  | some _ => (none, true)

/-- Result of an operation that may rewrite a destination region. -/
structure MemRes where
  ok : Bool
  dest : List Nat
  errW : Option SafeOpsError
deriving DecidableEq, Repr

/-- `SafeMemCopy(dest, destSize, src, srcSize)` (src/SafeOps.c lines 137-159):
fails with `SAFEOPS_ERR_OUT_OF_BOUNDS` when `srcSize > destSize`; the overlap
check only logs (no `SetError`, no failure); then `memmove` copies `srcSize`
bytes.  `src` is the list of the `srcSize` readable source bytes (regions are
distinct lists here, so the overlap branch has no modelled effect). -/
def safeMemCopy (dest : List Nat) (destSize : Nat) (src : List Nat) (srcSize : Nat) : MemRes :=
  if destSize < srcSize then ⟨false, dest, some .outOfBounds⟩
  else ⟨true, memcpyAt dest 0 (src.take srcSize), none⟩

/-- Result of `SafeStrCopy`, which reports through `errno` only. -/
structure CopyRes where
  ok : Bool
  dest : List Nat
  errW : Option SafeOpsError
  errno : Option Errno
deriving DecidableEq, Repr

/-- `SafeStrCopy(dest, destSize, src)` (src/SafeOps.c lines 224-237):
`SAFE_RETURN_VAL_IF_FAIL` rejects `destSize == 0` with `errno = EINVAL`;
`strlen(src) >= destSize` fails with `errno = EOVERFLOW`; otherwise
`strncpy(dest, src, destSize - 1)` and `dest[destSize - 1] = 0`.  No branch of
this function calls `SetError`.  `src` is NUL-terminated string content. -/
def safeStrCopy (dest : List Nat) (destSize : Nat) (src : List Nat) : CopyRes :=
  if destSize = 0 then ⟨false, dest, none, some .einval⟩
  else
    let srcLen := src.length
    if destSize ≤ srcLen then ⟨false, dest, none, some .eoverflow⟩
    else ⟨true, store (memcpyAt dest 0 (strncpyBytes src (destSize - 1))) (destSize - 1) 0,
          none, none⟩

/-- `SafeStrCat(dest, destSize, src)` (src/SafeOps.c lines 203-222): bounded
scan of `dest` within `destSize`, scan of `src` with limit `SIZE_MAX` (the
source string is its content `src` followed by the terminator), failure of
either scan propagates; `destLen + srcLen >= destSize` fails with
`SAFEOPS_ERR_OUT_OF_BOUNDS`; otherwise
`memcpy(dest + destLen, src, srcLen + 1)`. -/
def safeStrCat (dest : List Nat) (destSize : Nat) (src : List Nat) : MemRes :=
  let dr := safeStrLen dest destSize
  if dr.ok = false then ⟨false, dest, dr.errW⟩
  else
    let sr := safeStrLen (src ++ [0]) sizeMax
    if sr.ok = false then ⟨false, dest, sr.errW⟩
    else if destSize ≤ dr.len + sr.len then ⟨false, dest, some .outOfBounds⟩
    else ⟨true, memcpyAt dest dr.len ((src ++ [0]).take (sr.len + 1)), none⟩

/-- Result of `SafeStrFind`: `outPos` is `some p` exactly when the source wrote
`*outPos = p`. -/
structure FindRes where
  ok : Bool
  outPos : Option Nat
  errW : Option SafeOpsError
deriving DecidableEq, Repr

/-- `SafeStrFind(haystack, haystackLen, needle, outPos)` (src/SafeOps.c lines
293-315): `strlen(needle)` of 0 or greater than `haystackLen` fails with
`SAFEOPS_ERR_INVALID_PARAM`; otherwise `strstr` searches the whole
NUL-terminated haystack; no match stores the sentinel `haystackLen`, a match
stores its offset.  `hay` and `needle` are string contents. -/
def safeStrFind (hay : List Nat) (hayLen : Nat) (needle : List Nat) : FindRes :=
  let needleLen := needle.length
  if needleLen = 0 ∨ hayLen < needleLen then ⟨false, none, some .invalidParam⟩
  else
    match strstrIdx hay needle with
    | none => ⟨true, some hayLen, none⟩
    | some i => ⟨true, some i, none⟩

/-- Result of `SafeStrReplace`: the buffer after the call, the `*outLen` write,
and the `SetError` write. -/
structure ReplaceRes where
  ok : Bool
  buf : List Nat
  outLen : Option Nat
  errW : Option SafeOpsError
deriving DecidableEq, Repr

/-- `SafeStrReplace(str, strSize, oldStr, newStr, outLen)` (src/SafeOps.c lines
317-387).  `str` is the buffer region `buf` (its string content is the prefix
before the first 0; `strlen` requires such a terminator to exist).  Empty
`oldStr` fails with `SAFEOPS_ERR_INVALID_PARAM`.  The occurrence count and
`finalLen = strLen + count * (newLen - oldLen)` follow the source, the final
length in wrapping `size_t` arithmetic; `finalLen >= strSize` fails with
`SAFEOPS_ERR_OUT_OF_BOUNDS` before any write.  `count == 0` succeeds with no
mutation.  Otherwise a `SafeMalloc(strSize)` scratch buffer (zero-initialised)
receives the rebuilt string and its terminator, and
`memcpy(str, tempBuf, finalLen + 1)` commits it back. -/
def safeStrReplace (buf : List Nat) (strSize : Nat) (old new : List Nat) : ReplaceRes :=
  let s := buf.takeWhile (fun b => b ≠ 0)
  let strLen := s.length
  let oldLen := old.length
  let newLen := new.length
  if oldLen = 0 then ⟨false, buf, none, some .invalidParam⟩
  else
    let count := countOcc s old
    let finalLen := (strLen + count * ((newLen + (sizeModulus - oldLen)) % sizeModulus)) % sizeModulus
    if strSize ≤ finalLen then ⟨false, buf, none, some .outOfBounds⟩
    else if count = 0 then ⟨true, buf, some strLen, none⟩
    else
      match safeMalloc strSize with
      | (none, e) => ⟨false, buf, none, e⟩
      | (some _, _) =>
        let res := replaceBuild s old new
        let temp := (res ++ [0]) ++ List.replicate (strSize - (res.length + 1)) 0
        ⟨true, temp.take (finalLen + 1) ++ buf.drop (finalLen + 1), some finalLen, none⟩

/-- Result of `SafeAddInt`: `result` is the `*result` out-parameter (written
even on overflow by `__builtin_sadd_overflow`). -/
structure AddRes where
  ok : Bool
  result : Option Int
  errW : Option SafeOpsError
  errno : Option Errno
deriving DecidableEq, Repr

/-- Two-complement wrap of an integer into the 32-bit `int` range. -/
def wrap32 (x : Int) : Int := (x + 2 ^ 31) % 2 ^ 32 - 2 ^ 31

/-- `SafeAddInt(a, b, result)` (src/SafeOps.c lines 433-453), the
`__builtin_sadd_overflow` path: on overflow the wrapped sum is stored,
`errno = EOVERFLOW` is set and the call fails; no branch calls `SetError`. -/
def safeAddInt (a b : Int) : AddRes :=
  if intMax < a + b ∨ a + b < intMin then ⟨false, some (wrap32 (a + b)), none, some .eoverflow⟩
  else ⟨true, some (a + b), none, none⟩

/-- The `SafeFileOpts` structure of include/SafeOps.h. -/
structure SafeFileOpts where
  followSymlinks : Bool
  requireRegularFile : Bool
  createMode : Nat
  secureDelete : Bool
deriving DecidableEq, Repr

/-- The `defaultOpts` value installed by `SafeFOpen` when `opts` is NULL. -/
def defaultFileOpts : SafeFileOpts :=
  { followSymlinks := false, requireRegularFile := true, createMode := 0o644,
    secureDelete := false }

/-- The filesystem responses observed by one `SafeFOpen` call on the POSIX
path: the result of `open` (`some fd` or failure), of `fstat(fd, &st)`,
whether `S_ISREG(st.st_mode)` holds, and whether `fdopen` succeeds. -/
structure FileEnv where
  openRes : Option Nat
  fstatOk : Bool
  isReg : Bool
  fdopenOk : Bool
deriving DecidableEq, Repr

/-- Result of `SafeFOpen`: the returned `FILE*` (modelled by the descriptor it
wraps), whether `close(fd)` was called during the call, and the `SetError`
write. -/
structure FOpenRes where
  handle : Option Nat
  closedFd : Bool
  errW : Option SafeOpsError
deriving DecidableEq, Repr

/-- `SafeFOpen(filePath, mode, opts)` (src/SafeOps.c lines 488-566), POSIX
branch.  NULL `opts` selects `defaultFileOpts`.  A failed `open` fails with
`SAFEOPS_ERR_FILE_ACCESS`; after a successful open, a failed `fstat`, a
non-regular target under `requireRegularFile`, or a failed `fdopen` each close
the descriptor and fail with `SAFEOPS_ERR_FILE_ACCESS`; otherwise the stream
wrapping the descriptor is returned. -/
def safeFOpen (env : FileEnv) (optsArg : Option SafeFileOpts) : FOpenRes :=
  let opts := optsArg.getD defaultFileOpts
  match env.openRes with
  | none => ⟨none, false, some .fileAccess⟩
  | some fd =>
    if env.fstatOk = false then ⟨none, true, some .fileAccess⟩
    else if opts.requireRegularFile ∧ env.isReg = false then ⟨none, true, some .fileAccess⟩
    else if env.fdopenOk = false then ⟨none, true, some .fileAccess⟩
    else ⟨some fd, false, none⟩

/-- Bytes of the test string "Hello, World!" (part_001 line 121). -/
def helloWorld : List Nat := [72, 101, 108, 108, 111, 44, 32, 87, 111, 114, 108, 100, 33]

/-- Bytes of the test string " How are you?" (part_001 line 133). -/
def howAreYou : List Nat := [32, 72, 111, 119, 32, 97, 114, 101, 32, 121, 111, 117, 63]

/-- Bytes of "World". -/
def worldStr : List Nat := [87, 111, 114, 108, 100]

/-- Bytes of "Everyone". -/
def everyoneStr : List Nat := [69, 118, 101, 114, 121, 111, 110, 101]

/-- Bytes of "Hello, World! How are you?". -/
def helloWorldHow : List Nat := helloWorld ++ howAreYou

/-- Bytes of "Hello, Everyone! How are you?". -/
def helloEveryone : List Nat :=
  [72, 101, 108, 108, 111, 44, 32] ++ everyoneStr ++ [33] ++ howAreYou

/-- The capacity-50 test buffer holding "Hello, World!" (part_001 line 120,
after the copy). -/
def capacity50Buf : List Nat := helloWorld ++ List.replicate 37 0

/-! ### Helper lemmas: the bounded scan -/

theorem firstZero_nil : firstZero [] = 0 := rfl

theorem firstZero_cons (b : Nat) (rest : List Nat) :
    firstZero (b :: rest) = if b = 0 then 0 else firstZero rest + 1 := by
  by_cases hb : b = 0 <;> simp [firstZero, List.takeWhile_cons, hb]

theorem firstZero_le_length (r : List Nat) : firstZero r ≤ r.length :=
  List.Sublist.length_le (List.takeWhile_sublist _)

theorem getD_lt_firstZero (r : List Nat) (i : Nat) (h : i < firstZero r) :
    r.getD i 0 ≠ 0 := by
  induction r generalizing i with
  | nil => simp [firstZero] at h
  | cons b rest ih =>
    rw [firstZero_cons] at h
    by_cases hb : b = 0
    · simp [hb] at h
    · simp only [hb, if_false] at h
      cases i with
      | zero => exact hb
      | succ j => exact ih j (by omega)

theorem getD_firstZero (r : List Nat) (h : firstZero r < r.length) :
    r.getD (firstZero r) 0 = 0 := by
  induction r with
  | nil => simp at h
  | cons b rest ih =>
    rw [firstZero_cons] at h ⊢
    by_cases hb : b = 0
    · simp [hb]
    · simp only [hb, if_false] at h ⊢
      simpa using ih (by simpa using h)

theorem firstZero_take (r : List Nat) (n : Nat) :
    firstZero (r.take n) = min (firstZero r) n := by
  induction r generalizing n with
  | nil => simp [firstZero]
  | cons b rest ih =>
    cases n with
    | zero => simp [firstZero]
    | succ m =>
      by_cases hb : b = 0 <;>
        simp [List.take, firstZero_cons, hb, ih, Nat.succ_min_succ]

theorem zero_mem_take_iff (r : List Nat) (n : Nat) :
    0 ∈ r.take n ↔ firstZero r < n ∧ firstZero r < r.length := by
  induction r generalizing n with
  | nil => simp
  | cons b rest ih =>
    cases n with
    | zero => simp
    | succ m =>
      by_cases hb : b = 0
      · simp [hb, firstZero_cons]
      · simp only [List.take, List.mem_cons, firstZero_cons, hb, if_false]
        rw [ih]
        constructor
        · rintro (h0 | ⟨h1, h2⟩)
          · exact absurd h0.symm hb
          · exact ⟨by omega, by simpa using h2⟩
        · rintro ⟨h1, h2⟩
          exact Or.inr ⟨by omega, by simp at h2 ⊢; omega⟩

theorem firstZero_append_zero (s t : List Nat) (h : ∀ b ∈ s, b ≠ 0) :
    firstZero (s ++ 0 :: t) = s.length := by
  induction s with
  | nil => simp [firstZero_cons]
  | cons b rest ih =>
    have hb : b ≠ 0 := h b (by simp)
    simp only [List.cons_append, firstZero_cons, hb, if_false]
    rw [ih fun x hx => h x (by simp [hx])]
    simp

theorem strScan_eq_min (r : List Nat) (maxLen : Nat) :
    strScan r maxLen = min (firstZero r) maxLen := by
  induction r generalizing maxLen with
  | nil => simp [strScan, firstZero]
  | cons b rest ih =>
    rw [strScan, firstZero_cons]
    by_cases hm : maxLen = 0
    · simp [hm]
    · by_cases hb : b = 0
      · simp [hm, hb]
      · simp only [hm, hb, if_false]
        rw [ih]
        omega

theorem safeStrLen_eq (r : List Nat) (maxLen : Nat) :
    safeStrLen r maxLen =
      if firstZero r ≤ maxLen then ⟨true, firstZero r, none⟩
      else ⟨false, maxLen, some .outOfBounds⟩ := by
  simp only [safeStrLen, strScan_eq_min]
  by_cases h : firstZero r ≤ maxLen
  · rw [if_pos h]
    by_cases he : firstZero r = maxLen
    · have hmin : min (firstZero r) maxLen = maxLen := by omega
      rw [hmin]
      have hz : r.getD maxLen 0 = 0 := by
        by_cases hl : firstZero r < r.length
        · have hz0 := getD_firstZero r hl
          rwa [he] at hz0
        · exact List.getD_eq_default r 0 (by have := firstZero_le_length r; omega)
      rw [if_neg fun hc => hc.2 hz]
      rw [he]
    · have hmin : min (firstZero r) maxLen = firstZero r := by omega
      rw [hmin, if_neg (by intro hc; exact he hc.1)]
  · rw [if_neg h]
    have hmin : min (firstZero r) maxLen = maxLen := by omega
    rw [hmin]
    have hnz : r.getD maxLen 0 ≠ 0 := getD_lt_firstZero r maxLen (by omega)
    rw [if_pos ⟨rfl, hnz⟩]

theorem safeWStrLen_eq_safeStrLen (r : List Nat) (maxLen : Nat) :
    safeWStrLen r maxLen = safeStrLen r maxLen := rfl

/-! ### Helper lemmas: substring search -/

theorem strstrIdx_some_spec (hay needle : List Nat) (i : Nat)
    (h : strstrIdx hay needle = some i) :
    needle <+: hay.drop i ∧ ∀ j < i, ¬ needle <+: hay.drop j := by
  induction hay generalizing i with
  | nil =>
    rw [strstrIdx] at h
    by_cases hp : needle.isPrefixOf []
    · rw [if_pos hp] at h
      injection h with hi
      subst hi
      exact ⟨List.isPrefixOf_iff_prefix.mp hp, fun j hj => absurd hj (Nat.not_lt_zero j)⟩
    · rw [if_neg hp] at h
      exact absurd h (by simp)
  | cons a t ih =>
    rw [strstrIdx] at h
    by_cases hp : needle.isPrefixOf (a :: t)
    · rw [if_pos hp] at h
      injection h with hi
      subst hi
      exact ⟨List.isPrefixOf_iff_prefix.mp hp, fun j hj => absurd hj (Nat.not_lt_zero j)⟩
    · rw [if_neg hp] at h
      obtain ⟨i0, h0, hi⟩ := Option.map_eq_some'.mp h
      subst hi
      obtain ⟨hpre, hmin⟩ := ih i0 h0
      refine ⟨by simpa [List.drop_succ_cons] using hpre, ?_⟩
      intro j hj
      cases j with
      | zero =>
        exact fun hc => hp (List.isPrefixOf_iff_prefix.mpr hc)
      | succ j0 =>
        simpa [List.drop_succ_cons] using hmin j0 (by omega)

theorem strstrIdx_none_spec (hay needle : List Nat)
    (h : strstrIdx hay needle = none) : ∀ j, ¬ needle <+: hay.drop j := by
  induction hay with
  | nil =>
    rw [strstrIdx] at h
    by_cases hp : needle.isPrefixOf []
    · rw [if_pos hp] at h; exact absurd h (by simp)
    · intro j
      rw [List.drop_nil]
      exact fun hc => hp (List.isPrefixOf_iff_prefix.mpr hc)
  | cons a t ih =>
    rw [strstrIdx] at h
    by_cases hp : needle.isPrefixOf (a :: t)
    · rw [if_pos hp] at h; exact absurd h (by simp)
    · rw [if_neg (by simpa using hp)] at h
      have ht : strstrIdx t needle = none := Option.map_eq_none'.mp h
      intro j
      cases j with
      | zero => exact fun hc => hp (List.isPrefixOf_iff_prefix.mpr hc)
      | succ j0 => simpa [List.drop_succ_cons] using ih ht j0

theorem strstrIdx_some_le (hay needle : List Nat) (i : Nat) (hn : needle ≠ [])
    (h : strstrIdx hay needle = some i) : i + needle.length ≤ hay.length := by
  have hpre := (strstrIdx_some_spec hay needle i h).1
  obtain ⟨t, ht⟩ := hpre
  have h1 : needle.length + t.length = hay.length - i := by
    rw [← List.length_append, ht, List.length_drop]
  have h2 : i < hay.length := by
    by_contra hc
    push_neg at hc
    rw [List.drop_eq_nil_of_le hc] at ht
    exact hn (List.append_eq_nil.mp ht).1
  omega

/-! ### Helper lemmas: the count/rebuild decomposition of SafeStrReplace -/

theorem replace_decompF (old new : List Nat) (hold : old ≠ []) :
    ∀ (fuel : Nat) (s : List Nat), s.length < fuel →
      ∃ chunks : List (List Nat), chunks ≠ [] ∧
        chunks.length = countOccF fuel s old + 1 ∧
        joinWith old chunks = s ∧
        replaceBuildF fuel s old new = joinWith new chunks := by
  intro fuel
  induction fuel with
  | zero => intro s hs; omega
  | succ fuel ih =>
    intro s hs
    cases hm : strstrIdx s old with
    | none =>
      refine ⟨[s], by simp, ?_, ?_, ?_⟩
      · simp [countOccF, hm]
      · simp [joinWith]
      · simp [replaceBuildF, hm, joinWith]
    | some i =>
      have hb := strstrIdx_some_le s old i hold hm
      obtain ⟨t, ht⟩ := (strstrIdx_some_spec s old i hm).1
      have hol : 1 ≤ old.length := by
        cases old with
        | nil => exact absurd rfl hold
        | cons _ _ => simp
      have htt : t = s.drop (i + old.length) := by
        have h1 : List.drop old.length (List.drop i s) = List.drop (i + old.length) s :=
          List.drop_drop old.length i s
        rw [← ht, List.drop_left] at h1
        exact h1
      have hrestlen : (s.drop (i + old.length)).length < fuel := by
        rw [List.length_drop]
        omega
      obtain ⟨chunks, hne, hlen, hjoin, hbuild⟩ := ih (s.drop (i + old.length)) hrestlen
      cases chunks with
      | nil => exact absurd rfl hne
      | cons c cs =>
        refine ⟨s.take i :: c :: cs, by simp, ?_, ?_, ?_⟩
        · simp only [countOccF, hm, List.length_cons] at hlen ⊢
          omega
        · simp only [joinWith]
          rw [hjoin, ← htt, List.append_assoc, ht]
          exact List.take_append_drop i s
        · simp only [replaceBuildF, hm, joinWith]
          rw [hbuild]

theorem replace_decomp (s old new : List Nat) (hold : old ≠ []) :
    ∃ chunks : List (List Nat), chunks ≠ [] ∧
      chunks.length = countOcc s old + 1 ∧
      joinWith old chunks = s ∧
      replaceBuild s old new = joinWith new chunks :=
  replace_decompF old new hold (s.length + 1) s (Nat.lt_succ_self _)

theorem joinWith_length (sep : List Nat) :
    ∀ chunks : List (List Nat), chunks ≠ [] →
      (joinWith sep chunks).length + sep.length
        = (chunks.map List.length).sum + chunks.length * sep.length := by
  intro chunks
  induction chunks with
  | nil => intro h; exact absurd rfl h
  | cons c cs ih =>
    intro _
    cases cs with
    | nil => simp [joinWith]
    | cons c2 cs2 =>
      have hrec := ih (by simp)
      simp only [joinWith, List.length_append, List.map_cons, List.sum_cons,
        List.length_cons] at hrec ⊢
      have e1 : (cs2.length + 1 + 1) * sep.length
          = (cs2.length + 1) * sep.length + sep.length := Nat.succ_mul _ _
      omega

theorem joinWith_chunk_subset (sep : List Nat) :
    ∀ (chunks : List (List Nat)) (c : List Nat), c ∈ chunks →
      ∀ b ∈ c, b ∈ joinWith sep chunks := by
  intro chunks
  induction chunks with
  | nil => intro c hc; exact absurd hc (by simp)
  | cons c1 cs ih =>
    intro c hc b hb
    cases cs with
    | nil =>
      have : c = c1 := by simpa using hc
      subst this
      simpa [joinWith] using hb
    | cons c2 cs2 =>
      simp only [joinWith, List.mem_append]
      rcases List.mem_cons.mp hc with rfl | htail
      · exact Or.inl (Or.inl hb)
      · exact Or.inr (ih c htail b hb)

theorem joinWith_mem (sep : List Nat) :
    ∀ (chunks : List (List Nat)) (b : Nat), b ∈ joinWith sep chunks →
      (∃ c ∈ chunks, b ∈ c) ∨ b ∈ sep := by
  intro chunks
  induction chunks with
  | nil => intro b hb; exact absurd hb (by simp [joinWith])
  | cons c1 cs ih =>
    intro b hb
    cases cs with
    | nil => exact Or.inl ⟨c1, by simp, by simpa [joinWith] using hb⟩
    | cons c2 cs2 =>
      simp only [joinWith, List.mem_append] at hb
      rcases hb with (hb1 | hbs) | hbj
      · exact Or.inl ⟨c1, by simp, hb1⟩
      · exact Or.inr hbs
      · rcases ih b hbj with ⟨c, hc, hbc⟩ | hbs
        · exact Or.inl ⟨c, List.mem_cons_of_mem c1 hc, hbc⟩
        · exact Or.inr hbs

theorem countOcc_mul_le (s old : List Nat) (hold : old ≠ []) :
    countOcc s old * old.length ≤ s.length := by
  obtain ⟨chunks, hne, hlen, hjoin, _⟩ := replace_decomp s old [] hold
  have hL := joinWith_length old chunks hne
  rw [hjoin, hlen] at hL
  have hexp : (countOcc s old + 1) * old.length
      = countOcc s old * old.length + old.length := Nat.succ_mul _ _
  omega

theorem replaceBuild_length (s old new : List Nat) (hold : old ≠ []) :
    (replaceBuild s old new).length + countOcc s old * old.length
      = s.length + countOcc s old * new.length := by
  obtain ⟨chunks, hne, hlen, hjoin, hbuild⟩ := replace_decomp s old new hold
  have hLo := joinWith_length old chunks hne
  have hLn := joinWith_length new chunks hne
  rw [hjoin, hlen] at hLo
  rw [← hbuild, hlen] at hLn
  have e1 : (countOcc s old + 1) * old.length
      = countOcc s old * old.length + old.length := Nat.succ_mul _ _
  have e2 : (countOcc s old + 1) * new.length
      = countOcc s old * new.length + new.length := Nat.succ_mul _ _
  omega

theorem replaceBuild_mem (s old new : List Nat) (hold : old ≠ []) (b : Nat)
    (hb : b ∈ replaceBuild s old new) : b ∈ s ∨ b ∈ new := by
  obtain ⟨chunks, hne, _, hjoin, hbuild⟩ := replace_decomp s old new hold
  rw [hbuild] at hb
  rcases joinWith_mem new chunks b hb with ⟨c, hc, hbc⟩ | hnew
  · exact Or.inl (hjoin ▸ joinWith_chunk_subset old chunks c hc b hbc)
  · exact Or.inr hnew

/-! ### Helper lemmas: wrapped size arithmetic -/

theorem finalLen_eq (strLen count oldLen newLen : Nat)
    (h1 : count * oldLen ≤ strLen) (h2 : oldLen ≤ sizeModulus)
    (h3 : strLen - count * oldLen + count * newLen < sizeModulus) :
    (strLen + count * ((newLen + (sizeModulus - oldLen)) % sizeModulus)) % sizeModulus
      = strLen - count * oldLen + count * newLen := by
  have e0 : (strLen + count * ((newLen + (sizeModulus - oldLen)) % sizeModulus)) % sizeModulus
      = (strLen + count * (newLen + (sizeModulus - oldLen))) % sizeModulus := by
    conv_lhs => rw [Nat.add_mod, Nat.mul_mod, Nat.mod_mod_of_dvd _ dvd_rfl]
    conv_rhs => rw [Nat.add_mod, Nat.mul_mod]
  rw [e0]
  have e1 : count * (newLen + (sizeModulus - oldLen))
      = count * newLen + count * (sizeModulus - oldLen) := Nat.mul_add count _ _
  have e2 : count * (sizeModulus - oldLen) = count * sizeModulus - count * oldLen :=
    Nat.mul_sub_left_distrib count sizeModulus oldLen
  have e3 : count * oldLen ≤ count * sizeModulus := Nat.mul_le_mul (Nat.le_refl count) h2
  have e4 : strLen + count * (newLen + (sizeModulus - oldLen))
      = (strLen - count * oldLen + count * newLen) + count * sizeModulus := by omega
  rw [e4, Nat.add_mul_mod_self_right, Nat.mod_eq_of_lt h3]

/-! ### Helper lemmas: string contents -/

theorem mem_content_ne_zero (buf : List Nat) (b : Nat)
    (hb : b ∈ buf.takeWhile (fun x => x ≠ 0)) : b ≠ 0 := by
  have := List.mem_takeWhile_imp hb
  simpa using this

theorem takeWhile_append_zero (res rest : List Nat) (h : ∀ b ∈ res, b ≠ 0) :
    (res ++ 0 :: rest).takeWhile (fun x => x ≠ 0) = res := by
  induction res with
  | nil => simp [List.takeWhile_cons]
  | cons b rs ih =>
    have hb : b ≠ 0 := h b (by simp)
    simp only [List.cons_append, List.takeWhile_cons, decide_eq_true_eq]
    rw [if_pos hb, ih fun x hx => h x (by simp [hx])]

/-! ### Characterisation of SafeStrReplace -/

theorem safeStrReplace_spec (buf : List Nat) (strSize : Nat) (old new : List Nat)
    (s : List Nat) (count mfl : Nat)
    (hold : old ≠ [])
    (hs : s = buf.takeWhile (fun x => x ≠ 0))
    (hc : count = countOcc s old)
    (hm : mfl = s.length - count * old.length + count * new.length)
    (holdM : old.length ≤ sizeModulus)
    (hfin : mfl < sizeModulus)
    (hsize : strSize ≤ sizeMax - sizeofSizeT) :
    (strSize ≤ mfl →
      safeStrReplace buf strSize old new = ⟨false, buf, none, some .outOfBounds⟩) ∧
    (mfl < strSize → count = 0 →
      safeStrReplace buf strSize old new = ⟨true, buf, some s.length, none⟩) ∧
    (mfl < strSize → 0 < count →
      safeStrReplace buf strSize old new
        = ⟨true, replaceBuild s old new ++ 0 :: buf.drop (mfl + 1), some mfl, none⟩) := by
  subst hs hc hm
  set s := buf.takeWhile (fun x => x ≠ 0) with hs
  have h1 : countOcc s old * old.length ≤ s.length := countOcc_mul_le s old hold
  have hF : (s.length + countOcc s old
        * ((new.length + (sizeModulus - old.length)) % sizeModulus)) % sizeModulus
      = s.length - countOcc s old * old.length + countOcc s old * new.length :=
    finalLen_eq s.length (countOcc s old) old.length new.length h1 holdM hfin
  have hlen0 : ¬ old.length = 0 := fun hc0 => hold (List.length_eq_zero.mp hc0)
  simp only [safeStrReplace, ← hs, hlen0, if_false, hF]
  refine ⟨?_, ?_, ?_⟩
  · intro hle
    rw [if_pos hle]
  · intro hlt hc0
    rw [if_neg (by omega), if_pos hc0]
  · intro hlt hcpos
    rw [if_neg (by omega), if_neg (by omega)]
    have hmal : safeMalloc strSize = (some (List.replicate strSize 0), none) := by
      rw [safeMalloc, if_neg (by omega), if_neg (by omega)]
    rw [hmal]
    have hres : (replaceBuild s old new).length
        = s.length - countOcc s old * old.length + countOcc s old * new.length := by
      have := replaceBuild_length s old new hold
      omega
    have hlen1 : (replaceBuild s old new ++ [0]).length
        = (s.length - countOcc s old * old.length + countOcc s old * new.length) + 1 := by
      simp [hres]
    have htake : ((replaceBuild s old new ++ [0])
          ++ List.replicate (strSize - ((replaceBuild s old new).length + 1)) 0).take
          ((s.length - countOcc s old * old.length + countOcc s old * new.length) + 1)
        = replaceBuild s old new ++ [0] := by
      rw [← hlen1, List.take_left]
    rw [htake]
    simp

/-! ### Further characterisations used by the claims -/

theorem safeStrLen_cases (r : List Nat) (m : Nat) :
    safeStrLen r m = ⟨true, firstZero r, none⟩ ∨
    safeStrLen r m = ⟨false, m, some .outOfBounds⟩ := by
  rw [safeStrLen_eq]
  by_cases h : firstZero r ≤ m
  · exact Or.inl (if_pos h)
  · exact Or.inr (if_neg h)

theorem safeStrLen_local (r1 r2 : List Nat) (maxLen : Nat)
    (h : r1.take (maxLen + 1) = r2.take (maxLen + 1)) :
    safeStrLen r1 maxLen = safeStrLen r2 maxLen := by
  have h1 : min (firstZero r1) (maxLen + 1) = min (firstZero r2) (maxLen + 1) := by
    rw [← firstZero_take, ← firstZero_take, h]
  rw [safeStrLen_eq, safeStrLen_eq]
  by_cases hz : firstZero r1 ≤ maxLen
  · have hz2 : firstZero r2 ≤ maxLen := by omega
    have he : firstZero r1 = firstZero r2 := by omega
    rw [if_pos hz, if_pos hz2, he]
  · have hz2 : ¬ firstZero r2 ≤ maxLen := by omega
    rw [if_neg hz, if_neg hz2]

theorem safeStrCat_oob (dest : List Nat) (destSize : Nat) (src : List Nat)
    (hsrc : ∀ b ∈ src, b ≠ 0) (hslen : src.length ≤ sizeMax)
    (hL : destSize ≤ firstZero dest + src.length) :
    safeStrCat dest destSize src = ⟨false, dest, some .outOfBounds⟩ := by
  by_cases hd : firstZero dest ≤ destSize
  · have hdr : safeStrLen dest destSize = ⟨true, firstZero dest, none⟩ := by
      rw [safeStrLen_eq, if_pos hd]
    have hsfz : firstZero (src ++ [0]) = src.length := firstZero_append_zero src [] hsrc
    have hsr : safeStrLen (src ++ [0]) sizeMax = ⟨true, src.length, none⟩ := by
      rw [safeStrLen_eq, hsfz, if_pos hslen]
    simp [safeStrCat, hdr, hsr, hL]
  · have hdr : safeStrLen dest destSize = ⟨false, destSize, some .outOfBounds⟩ := by
      rw [safeStrLen_eq, if_neg hd]
    simp [safeStrCat, hdr]

/-! ### Claim C1 -/

/-- Claim C1 (amended): for every destination capacity and every payload whose
required write size exceeds it, `SafeStrCat`, `SafeMemCopy` and `SafeStrReplace`
fail with OutOfBounds and leave the destination byte-for-byte unchanged, and
`SafeStrCopy` also fails and leaves the destination unchanged — but it reports
through `errno` (`EOVERFLOW`, or `EINVAL` for a zero capacity) and never writes
the OutOfBounds code to the thread-local error cell. -/
theorem c1_required_size_exceeds_capacity
    (dest src buf old new : List Nat) (destSize srcSize strSize : Nat)
    (s : List Nat) (count mfl : Nat)
    (hcopy : destSize ≤ src.length)
    (hsrc : ∀ b ∈ src, b ≠ 0) (hslen : src.length ≤ sizeMax)
    (hcat : destSize ≤ firstZero dest + src.length)
    (hmem : destSize < srcSize)
    (hold : old ≠ [])
    (hs : s = buf.takeWhile (fun x => x ≠ 0))
    (hc : count = countOcc s old)
    (hm : mfl = s.length - count * old.length + count * new.length)
    (holdM : old.length ≤ sizeModulus) (hfin : mfl < sizeModulus)
    (hsize : strSize ≤ sizeMax - sizeofSizeT)
    (hrep : strSize ≤ mfl) :
    safeStrCopy dest destSize src
      = ⟨false, dest, none, some (if destSize = 0 then Errno.einval else Errno.eoverflow)⟩ ∧
    safeStrCat dest destSize src = ⟨false, dest, some .outOfBounds⟩ ∧
    safeMemCopy dest destSize src srcSize = ⟨false, dest, some .outOfBounds⟩ ∧
    safeStrReplace buf strSize old new = ⟨false, buf, none, some .outOfBounds⟩ := by
  refine ⟨?_, ?_, ?_, ?_⟩
  · by_cases h0 : destSize = 0
    · simp [safeStrCopy, h0]
    · simp [safeStrCopy, h0, hcopy]
  · exact safeStrCat_oob dest destSize src hsrc hslen hcat
  · simp [safeMemCopy, hmem]
  · exact (safeStrReplace_spec buf strSize old new s count mfl hold hs hc hm
      holdM hfin hsize).1 hrep

/-- Witness for C1 at concrete inputs: capacity 3 with a length-3 source for
copy/cat, a 4-byte payload into capacity 3 for memCopy, and a growth
replacement into capacity 3 for replaceAll. -/
theorem c1_required_size_exceeds_capacity_witness :
    safeStrCopy [0, 0, 0] 3 [97, 98, 99] = ⟨false, [0, 0, 0], none, some Errno.eoverflow⟩ ∧
    safeStrCat [0, 0, 0] 3 [97, 98, 99] = ⟨false, [0, 0, 0], some .outOfBounds⟩ ∧
    safeMemCopy [0, 0, 0] 3 [97, 98, 99, 100] 4 = ⟨false, [0, 0, 0], some .outOfBounds⟩ ∧
    safeStrReplace [97, 98, 0, 0] 3 [97] [99, 100]
      = ⟨false, [97, 98, 0, 0], none, some .outOfBounds⟩ := by
  have h := c1_required_size_exceeds_capacity [0, 0, 0] [97, 98, 99] [97, 98, 0, 0]
    [97] [99, 100] 3 4 3 [97, 98] 1 3
    (by decide) (by decide) (by decide) (by decide) (by decide) (by decide)
    (by decide) (by decide) (by decide) (by decide) (by decide) (by decide) (by decide)
  simpa using h

/-- Counterexample to C1 as stated: `SafeStrCopy` on an oversized payload fails
but performs no `SetError` call at all, so the thread-local error cell is not
set to OutOfBounds (the failure is reported via `errno = EOVERFLOW`). -/
theorem c1_counterexample :
    (safeStrCopy [0, 0, 0] 3 [97, 98, 99]).ok = false ∧
    (safeStrCopy [0, 0, 0] 3 [97, 98, 99]).errW = none ∧
    (safeStrCopy [0, 0, 0] 3 [97, 98, 99]).errW ≠ some SafeOpsError.outOfBounds ∧
    (safeStrCopy [0, 0, 0] 3 [97, 98, 99]).errno = some Errno.eoverflow := by
  decide

/-! ### Branch enumeration helpers -/

theorem safeStrFind_cases (hay : List Nat) (hayLen : Nat) (needle : List Nat) :
    safeStrFind hay hayLen needle = ⟨false, none, some .invalidParam⟩ ∨
    ((safeStrFind hay hayLen needle).ok = true ∧
      (safeStrFind hay hayLen needle).errW = none) := by
  simp only [safeStrFind]
  split
  · exact Or.inl rfl
  · split <;> exact Or.inr ⟨rfl, rfl⟩

theorem safeStrCat_cases (dest : List Nat) (destSize : Nat) (src : List Nat) :
    ((safeStrCat dest destSize src).ok = false ∧
      (safeStrCat dest destSize src).errW = some .outOfBounds) ∨
    ((safeStrCat dest destSize src).ok = true ∧
      (safeStrCat dest destSize src).errW = none) := by
  simp only [safeStrCat]
  split
  · rename_i hdf
    rcases safeStrLen_cases dest destSize with hc | hc
    · rw [hc] at hdf; simp at hdf
    · rw [hc]
      exact Or.inl ⟨rfl, rfl⟩
  · split
    · rename_i hsf
      rcases safeStrLen_cases (src ++ [0]) sizeMax with hc | hc
      · rw [hc] at hsf; simp at hsf
      · rw [hc]
        exact Or.inl ⟨rfl, rfl⟩
    · split
      · exact Or.inl ⟨rfl, rfl⟩
      · exact Or.inr ⟨rfl, rfl⟩

theorem safeStrReplace_cases (buf : List Nat) (strSize : Nat) (old new : List Nat) :
    safeStrReplace buf strSize old new = ⟨false, buf, none, some .invalidParam⟩ ∨
    safeStrReplace buf strSize old new = ⟨false, buf, none, some .outOfBounds⟩ ∨
    safeStrReplace buf strSize old new = ⟨false, buf, none, some .overflow⟩ ∨
    ((safeStrReplace buf strSize old new).ok = true ∧
      (safeStrReplace buf strSize old new).errW = none) := by
  simp only [safeStrReplace]
  split
  · exact Or.inl rfl
  · split
    · exact Or.inr (Or.inl rfl)
    · split
      · exact Or.inr (Or.inr (Or.inr ⟨rfl, rfl⟩))
      · split
        · rename_i e heq
          rw [safeMalloc] at heq
          split at heq
          · injection heq with h1 h2
            rw [← h2]
            exact Or.inl rfl
          · split at heq
            · injection heq with h1 h2
              rw [← h2]
              exact Or.inr (Or.inr (Or.inl rfl))
            · injection heq with h1 h2
              exact absurd h1 (by simp)
        · exact Or.inr (Or.inr (Or.inr ⟨rfl, rfl⟩))

theorem safeFOpen_cases (env : FileEnv) (optsArg : Option SafeFileOpts) :
    ((safeFOpen env optsArg).handle = none ∧
      (safeFOpen env optsArg).errW = some .fileAccess) ∨
    ((safeFOpen env optsArg).handle ≠ none ∧ (safeFOpen env optsArg).errW = none) := by
  simp only [safeFOpen]
  split
  · exact Or.inl ⟨rfl, rfl⟩
  · split
    · exact Or.inl ⟨rfl, rfl⟩
    · split
      · exact Or.inl ⟨rfl, rfl⟩
      · split
        · exact Or.inl ⟨rfl, rfl⟩
        · exact Or.inr ⟨by simp, rfl⟩

/-! ### Claim C2 -/

/-- Claim C2 (amended): the operations that report through the diagnostics
channel (`SetError`) — allocation, memCopy, the bounded length scans,
concatenate, find, replaceAll, open — write a non-Ok error code to the
thread-local cell on every failure and leave the cell untouched on every
success; but the operations built on `SAFE_RETURN_VAL_IF_FAIL`/`errno`
(`SafeStrCopy`, `SafeAddInt`) never touch the cell, even when they fail. -/
theorem c2_error_cell_discipline
    (size destSize maxLen srcSize strSize hayLen : Nat)
    (dest src r hay needle buf old new : List Nat) (a b : Int)
    (env : FileEnv) (optsArg : Option SafeFileOpts) :
    ((safeMalloc size).1 = none →
      ∃ e, e ≠ SafeOpsError.ok ∧ (safeMalloc size).2 = some e) ∧
    ((safeMalloc size).1 ≠ none → (safeMalloc size).2 = none) ∧
    ((safeMemCopy dest destSize src srcSize).ok = false →
      ∃ e, e ≠ SafeOpsError.ok ∧ (safeMemCopy dest destSize src srcSize).errW = some e) ∧
    ((safeMemCopy dest destSize src srcSize).ok = true →
      (safeMemCopy dest destSize src srcSize).errW = none) ∧
    ((safeStrLen r maxLen).ok = false →
      ∃ e, e ≠ SafeOpsError.ok ∧ (safeStrLen r maxLen).errW = some e) ∧
    ((safeStrLen r maxLen).ok = true → (safeStrLen r maxLen).errW = none) ∧
    ((safeWStrLen r maxLen).ok = false →
      ∃ e, e ≠ SafeOpsError.ok ∧ (safeWStrLen r maxLen).errW = some e) ∧
    ((safeWStrLen r maxLen).ok = true → (safeWStrLen r maxLen).errW = none) ∧
    ((safeStrCat dest destSize src).ok = false →
      ∃ e, e ≠ SafeOpsError.ok ∧ (safeStrCat dest destSize src).errW = some e) ∧
    ((safeStrCat dest destSize src).ok = true → (safeStrCat dest destSize src).errW = none) ∧
    ((safeStrFind hay hayLen needle).ok = false →
      ∃ e, e ≠ SafeOpsError.ok ∧ (safeStrFind hay hayLen needle).errW = some e) ∧
    ((safeStrFind hay hayLen needle).ok = true → (safeStrFind hay hayLen needle).errW = none) ∧
    ((safeStrReplace buf strSize old new).ok = false →
      ∃ e, e ≠ SafeOpsError.ok ∧ (safeStrReplace buf strSize old new).errW = some e) ∧
    ((safeStrReplace buf strSize old new).ok = true →
      (safeStrReplace buf strSize old new).errW = none) ∧
    ((safeFOpen env optsArg).handle = none →
      ∃ e, e ≠ SafeOpsError.ok ∧ (safeFOpen env optsArg).errW = some e) ∧
    ((safeFOpen env optsArg).handle ≠ none → (safeFOpen env optsArg).errW = none) ∧
    (safeStrCopy dest destSize src).errW = none ∧
    (safeAddInt a b).errW = none := by
  refine ⟨?_, ?_, ?_, ?_, ?_, ?_, ?_, ?_, ?_, ?_, ?_, ?_, ?_, ?_, ?_, ?_, ?_, ?_⟩
  · intro h
    rw [safeMalloc] at h ⊢
    by_cases h0 : size = 0
    · exact ⟨.invalidParam, by simp, by simp [h0]⟩
    · by_cases h1 : sizeMax - sizeofSizeT < size
      · exact ⟨.overflow, by simp, by simp [h0, h1]⟩
      · simp [h0, h1] at h
  · intro h
    rw [safeMalloc] at h ⊢
    by_cases h0 : size = 0
    · simp [h0] at h
    · by_cases h1 : sizeMax - sizeofSizeT < size
      · simp [h0, h1] at h
      · simp [h0, h1]
  · intro h
    by_cases hb : destSize < srcSize
    · exact ⟨.outOfBounds, by simp, by simp [safeMemCopy, hb]⟩
    · simp [safeMemCopy, hb] at h
  · intro h
    by_cases hb : destSize < srcSize
    · simp [safeMemCopy, hb] at h
    · simp [safeMemCopy, hb]
  · intro h
    rcases safeStrLen_cases r maxLen with hc | hc
    · rw [hc] at h; simp at h
    · exact ⟨.outOfBounds, by simp, by rw [hc]⟩
  · intro h
    rcases safeStrLen_cases r maxLen with hc | hc
    · rw [hc]
    · rw [hc] at h; simp at h
  · intro h
    rw [safeWStrLen_eq_safeStrLen] at h ⊢
    rcases safeStrLen_cases r maxLen with hc | hc
    · rw [hc] at h; simp at h
    · exact ⟨.outOfBounds, by simp, by rw [hc]⟩
  · intro h
    rw [safeWStrLen_eq_safeStrLen] at h ⊢
    rcases safeStrLen_cases r maxLen with hc | hc
    · rw [hc]
    · rw [hc] at h; simp at h
  · intro h
    rcases safeStrCat_cases dest destSize src with ⟨_, he⟩ | ⟨hok, _⟩
    · exact ⟨.outOfBounds, by simp, he⟩
    · rw [h] at hok; exact absurd hok (by simp)
  · intro h
    rcases safeStrCat_cases dest destSize src with ⟨hok, _⟩ | ⟨_, he⟩
    · rw [h] at hok; exact absurd hok (by simp)
    · exact he
  · intro h
    rcases safeStrFind_cases hay hayLen needle with hc | ⟨hok, _⟩
    · exact ⟨.invalidParam, by simp, by rw [hc]⟩
    · rw [h] at hok; exact absurd hok (by simp)
  · intro h
    rcases safeStrFind_cases hay hayLen needle with hc | ⟨_, he⟩
    · rw [hc] at h; simp at h
    · exact he
  · intro h
    rcases safeStrReplace_cases buf strSize old new with hc | hc | hc | ⟨hok, _⟩
    · exact ⟨.invalidParam, by simp, by rw [hc]⟩
    · exact ⟨.outOfBounds, by simp, by rw [hc]⟩
    · exact ⟨.overflow, by simp, by rw [hc]⟩
    · rw [h] at hok; exact absurd hok (by simp)
  · intro h
    rcases safeStrReplace_cases buf strSize old new with hc | hc | hc | ⟨_, he⟩
    · rw [hc] at h; simp at h
    · rw [hc] at h; simp at h
    · rw [hc] at h; simp at h
    · exact he
  · intro h
    rcases safeFOpen_cases env optsArg with ⟨_, he⟩ | ⟨hne, _⟩
    · exact ⟨.fileAccess, by simp, he⟩
    · exact absurd h hne
  · intro h
    rcases safeFOpen_cases env optsArg with ⟨hn, _⟩ | ⟨_, he⟩
    · exact absurd hn h
    · exact he
  · by_cases h0 : destSize = 0
    · simp [safeStrCopy, h0]
    · by_cases h1 : destSize ≤ src.length <;> simp [safeStrCopy, h0, h1]
  · by_cases h0 : intMax < a + b ∨ a + b < intMin <;> simp [safeAddInt, h0]

/-- Witness for C2: a failing allocation writes InvalidParam to the cell, and a
successful find leaves the cell untouched. -/
theorem c2_error_cell_discipline_witness :
    (safeMalloc 0).1 = none ∧
    (∃ e, e ≠ SafeOpsError.ok ∧ (safeMalloc 0).2 = some e) ∧
    (safeStrFind [97] 1 [97]).ok = true ∧
    (safeStrFind [97] 1 [97]).errW = none := by
  have h := c2_error_cell_discipline 0 1 1 1 1 1 [0] [97] [0] [97] [97] [0] [97] []
    0 0 ⟨some 3, true, true, true⟩ none
  obtain ⟨h1, h2, h3, h4, h5, h6, h7, h8, h9, h10, h11, h12, h13, h14, h15, h16, h17, h18⟩ := h
  exact ⟨by decide, h1 (by decide), by decide, h12 (by decide)⟩

/-- Counterexample to C2 as stated: `SafeAddInt` is a fallible operation of the
library, yet on an overflowing input it fails without updating the thread-local
error cell (it only sets `errno = EOVERFLOW`). -/
theorem c2_counterexample :
    (safeAddInt intMax 1).ok = false ∧
    (safeAddInt intMax 1).errno = some Errno.eoverflow ∧
    ¬ ((safeAddInt intMax 1).ok = false →
      ∃ e, e ≠ SafeOpsError.ok ∧ (safeAddInt intMax 1).errW = some e) := by
  refine ⟨by decide, by decide, ?_⟩
  intro hcl
  obtain ⟨e, _, he⟩ := hcl (by decide)
  have hn : (safeAddInt intMax 1).errW = none := by decide
  rw [hn] at he
  exact Option.noConfusion he

/-! ### Claim C3 -/

/-- Claim C3 (amended): `SafeStrFind` fails with InvalidParam exactly when the
needle is empty or longer than `haystackLen`; otherwise it succeeds, and it
returns `haystackLen` exactly when the needle occurs nowhere in the whole
NUL-terminated haystack — the search is `strstr` over the entire string, not
over its first `haystackLen` bytes — and otherwise the zero-based offset of
the first occurrence in the whole string. -/
theorem c3_find_sentinel_and_first_occurrence (hay needle : List Nat) (hayLen : Nat) :
    (needle.length = 0 ∨ hayLen < needle.length →
      safeStrFind hay hayLen needle = ⟨false, none, some .invalidParam⟩) ∧
    (¬ (needle.length = 0 ∨ hayLen < needle.length) →
      (∀ j, ¬ needle <+: hay.drop j) →
      safeStrFind hay hayLen needle = ⟨true, some hayLen, none⟩) ∧
    (¬ (needle.length = 0 ∨ hayLen < needle.length) →
      ∀ i, needle <+: hay.drop i → (∀ j < i, ¬ needle <+: hay.drop j) →
        safeStrFind hay hayLen needle = ⟨true, some i, none⟩) := by
  refine ⟨?_, ?_, ?_⟩
  · intro hp
    simp only [safeStrFind]
    rw [if_pos hp]
  · intro hp hall
    simp only [safeStrFind]
    rw [if_neg hp]
    cases hm : strstrIdx hay needle with
    | none => rfl
    | some i =>
      exact absurd (strstrIdx_some_spec hay needle i hm).1 (hall i)
  · intro hp i hi hmin
    simp only [safeStrFind]
    rw [if_neg hp]
    cases hm : strstrIdx hay needle with
    | none => exact absurd hi (strstrIdx_none_spec hay needle hm i)
    | some i0 =>
      obtain ⟨hpre, hless⟩ := strstrIdx_some_spec hay needle i0 hm
      have : i0 = i := by
        rcases Nat.lt_trichotomy i0 i with hlt | heq | hgt
        · exact absurd hpre (hmin i0 hlt)
        · exact heq
        · exact absurd hi (hless i hgt)
      rw [this]

/-- Witness for C3: rejection of an oversized needle, and the first occurrence
of "b" in "abb" at offset 1. -/
theorem c3_find_witness :
    safeStrFind [97, 98, 98] 0 [98] = ⟨false, none, some .invalidParam⟩ ∧
    safeStrFind [97, 98, 98] 3 [98] = ⟨true, some 1, none⟩ := by
  refine ⟨(c3_find_sentinel_and_first_occurrence [97, 98, 98] [98] 0).1 (by decide), ?_⟩
  exact (c3_find_sentinel_and_first_occurrence [97, 98, 98] [98] 3).2.2 (by decide) 1
    (by decide) (by decide)

/-- Counterexample to C3 as stated: with haystack "abc", haystackLen 1 and
needle "c", the needle does not occur in the first 1 bytes, so the claim
requires the sentinel return 1; the code searches the whole string with
`strstr` and returns offset 2. -/
theorem c3_counterexample :
    (∀ j ≤ 1, ¬ ([99] : List Nat) <+: (([97, 98, 99] : List Nat).take 1).drop j) ∧
    safeStrFind [97, 98, 99] 1 [99] = ⟨true, some 2, none⟩ ∧
    some (2 : Nat) ≠ some 1 := by
  refine ⟨by decide, by decide, by decide⟩

/-! ### Claim C4 -/

/-- Claim C4 (confirmed): `SafeStrReplace` rejects an empty old substring with
InvalidParam; it counts non-overlapping occurrences by advancing past each
match (witnessed by the chunk decomposition of the string into count + 1
literal chunks separated by the old substring); the wrapped `size_t` value
`strLen + count * (newLen - oldLen)` it computes equals the specified final
length; it fails with OutOfBounds before writing any byte when that length
reaches the capacity; and with zero occurrences it succeeds without mutation,
reporting the unchanged original length. -/
theorem c4_replace_follows_algorithm (buf old new : List Nat) (strSize : Nat)
    (s : List Nat) (count mfl : Nat)
    (hs : s = buf.takeWhile (fun x => x ≠ 0))
    (hc : count = countOcc s old)
    (hm : mfl = s.length - count * old.length + count * new.length)
    (holdM : old.length ≤ sizeModulus) (hfin : mfl < sizeModulus)
    (hsize : strSize ≤ sizeMax - sizeofSizeT) :
    (old = [] → safeStrReplace buf strSize old new = ⟨false, buf, none, some .invalidParam⟩) ∧
    (old ≠ [] →
      (s.length + count * ((new.length + (sizeModulus - old.length)) % sizeModulus))
          % sizeModulus = mfl ∧
      (∃ chunks : List (List Nat), chunks.length = count + 1 ∧ joinWith old chunks = s) ∧
      (strSize ≤ mfl →
        safeStrReplace buf strSize old new = ⟨false, buf, none, some .outOfBounds⟩) ∧
      (count = 0 → mfl < strSize →
        safeStrReplace buf strSize old new = ⟨true, buf, some s.length, none⟩)) := by
  refine ⟨?_, ?_⟩
  · intro h0
    subst h0
    simp only [safeStrReplace]
    rw [if_pos (show ([] : List Nat).length = 0 from rfl)]
  · intro hold
    have hsp := safeStrReplace_spec buf strSize old new s count mfl hold hs hc hm
      holdM hfin hsize
    refine ⟨?_, ?_, hsp.1, fun h0 hlt => hsp.2.1 hlt h0⟩
    · have h1 : countOcc s old * old.length ≤ s.length := countOcc_mul_le s old hold
      rw [hm, hc]
      exact finalLen_eq s.length (countOcc s old) old.length new.length h1 holdM
        (by rw [hm, hc] at hfin; exact hfin)
    · obtain ⟨chunks, _, hlen, hjoin, _⟩ := replace_decomp s old new hold
      exact ⟨chunks, by rw [hc]; exact hlen, hjoin⟩

/-- Witness for C4: the buffer "aba" of capacity 3, replacing "a" with "bb"
needs final length 5 and is rejected with OutOfBounds, buffer untouched. -/
theorem c4_replace_follows_algorithm_witness :
    safeStrReplace [97, 98, 97, 0, 0, 0] 3 [97] [98, 98]
      = ⟨false, [97, 98, 97, 0, 0, 0], none, some SafeOpsError.outOfBounds⟩ := by
  have h := (c4_replace_follows_algorithm [97, 98, 97, 0, 0, 0] [97] [98, 98] 3
    [97, 98, 97] 2 5 (by decide) (by decide) (by decide) (by decide) (by decide)
    (by decide)).2 (by decide)
  exact h.2.2.1 (by decide)

/-! ### Claim C5 -/

/-- Claim C5 (amended): on the capacity-50 buffer containing "Hello, World!",
concatenating " How are you?" succeeds and yields "Hello, World! How are
you?", and the subsequent replaceAll of "World" by "Everyone" succeeds,
yields "Hello, Everyone! How are you?", and reports length 29 (the actual
length of that string; the spec text says 31). -/
theorem c5_end_to_end :
    safeStrCat capacity50Buf 50 howAreYou
      = ⟨true, helloWorldHow ++ 0 :: List.replicate 23 0, none⟩ ∧
    safeStrReplace (safeStrCat capacity50Buf 50 howAreYou).dest 50 worldStr everyoneStr
      = ⟨true, helloEveryone ++ 0 :: List.replicate 20 0, some 29, none⟩ := by
  refine ⟨by decide, by decide⟩

/-- Counterexample to C5 as stated: the replaceAll of the end-to-end example
reports length 29, not 31 — "Hello, Everyone! How are you?" has 29 bytes. -/
theorem c5_counterexample :
    (safeStrReplace (safeStrCat capacity50Buf 50 howAreYou).dest 50
        worldStr everyoneStr).outLen = some 29 ∧
    helloEveryone.length = 29 ∧
    some (29 : Nat) ≠ some 31 := by
  refine ⟨by decide, by decide, by decide⟩

/-! ### Claim C6 -/

/-- Claim C6 (amended): the bounded length scans examine at most the first
`maxLen + 1` elements of the sequence (the loop reads indices `0..maxLen-1`
and the final check reads index `maxLen`); they succeed returning the index of
the first terminator exactly when a terminator occurs among those first
`maxLen + 1` elements — in particular a terminator at index `maxLen` itself,
one past the scan window, still yields success with length `maxLen` — and fail
with OutOfBounds otherwise.  `SafeWStrLen` behaves identically per element. -/
theorem c6_bounded_length_scan (r : List Nat) (maxLen : Nat) (hlen : maxLen < r.length) :
    (∀ r2 : List Nat, r.take (maxLen + 1) = r2.take (maxLen + 1) →
      safeStrLen r maxLen = safeStrLen r2 maxLen ∧
      safeWStrLen r maxLen = safeWStrLen r2 maxLen) ∧
    (0 ∈ r.take (maxLen + 1) →
      safeStrLen r maxLen = ⟨true, firstZero r, none⟩ ∧
      r.getD (firstZero r) 0 = 0 ∧ (∀ i < firstZero r, r.getD i 0 ≠ 0) ∧
      safeWStrLen r maxLen = safeStrLen r maxLen) ∧
    (0 ∉ r.take (maxLen + 1) →
      safeStrLen r maxLen = ⟨false, maxLen, some .outOfBounds⟩ ∧
      safeWStrLen r maxLen = safeStrLen r maxLen) := by
  refine ⟨?_, ?_, ?_⟩
  · intro r2 h
    exact ⟨safeStrLen_local r r2 maxLen h, by
      rw [safeWStrLen_eq_safeStrLen, safeWStrLen_eq_safeStrLen]
      exact safeStrLen_local r r2 maxLen h⟩
  · intro hmem
    obtain ⟨h1, h2⟩ := (zero_mem_take_iff r (maxLen + 1)).mp hmem
    refine ⟨by rw [safeStrLen_eq, if_pos (by omega)], getD_firstZero r h2,
      fun i hi => getD_lt_firstZero r i hi, safeWStrLen_eq_safeStrLen r maxLen⟩
  · intro hmem
    have hgt : ¬ (firstZero r < maxLen + 1 ∧ firstZero r < r.length) :=
      fun hc => hmem ((zero_mem_take_iff r (maxLen + 1)).mpr hc)
    have : ¬ firstZero r ≤ maxLen := by
      intro hle
      exact hgt ⟨by omega, by omega⟩
    exact ⟨by rw [safeStrLen_eq, if_neg this], safeWStrLen_eq_safeStrLen r maxLen⟩

/-- Witness for C6: scanning "ab" terminated at index 2 with maxLen 2 finds
length 2; scanning the same buffer with maxLen 1 (no terminator among the
first 2 elements) fails with OutOfBounds. -/
theorem c6_bounded_length_scan_witness :
    safeStrLen [97, 98, 0, 99] 2 = ⟨true, 2, none⟩ ∧
    safeStrLen [97, 98, 0, 99] 1 = ⟨false, 1, some .outOfBounds⟩ := by
  refine ⟨?_, ?_⟩
  · have h := ((c6_bounded_length_scan [97, 98, 0, 99] 2 (by decide)).2.1 (by decide)).1
    simpa using h
  · have h := ((c6_bounded_length_scan [97, 98, 0, 99] 1 (by decide)).2.2 (by decide)).1
    exact h

/-- Counterexample to C6 as stated: the sequence "a" terminated at index 1,
scanned with maxLen 1.  No terminator occurs among the first maxLen = 1
elements, so the claim requires an OutOfBounds failure; the code reads the
element at index maxLen as well, finds the terminator there, and succeeds
with length 1. -/
theorem c6_counterexample :
    (0 : Nat) ∉ ([97, 0] : List Nat).take 1 ∧
    safeStrLen [97, 0] 1 = ⟨true, 1, none⟩ ∧
    (safeStrLen [97, 0] 1).errW ≠ some SafeOpsError.outOfBounds := by
  refine ⟨by decide, by decide, by decide⟩

/-! ### Claim C7 -/

/-- Claim C7 (confirmed): with `requireRegularFile` set, `SafeFOpen` never
returns a handle when the identity queried from the already-open descriptor is
not a regular file — it closes the descriptor and fails with FileAccess — and
on every failure path after a successful low-level open the descriptor is
closed before returning. -/
theorem c7_fopen_no_descriptor_leak (env : FileEnv) (optsArg : Option SafeFileOpts) :
    ((optsArg.getD defaultFileOpts).requireRegularFile = true → env.isReg = false →
      (safeFOpen env optsArg).handle = none ∧
      (env.openRes ≠ none →
        (safeFOpen env optsArg).closedFd = true ∧
        (safeFOpen env optsArg).errW = some .fileAccess)) ∧
    (∀ fd, env.openRes = some fd → (safeFOpen env optsArg).handle = none →
      (safeFOpen env optsArg).closedFd = true) := by
  obtain ⟨o, fs, ir, fo⟩ := env
  refine ⟨?_, ?_⟩
  · intro hrr hir
    cases hir
    cases o with
    | none => exact ⟨rfl, fun hc => absurd rfl hc⟩
    | some fd =>
      cases fs with
      | false => exact ⟨rfl, fun _ => ⟨rfl, rfl⟩⟩
      | true =>
        refine ⟨?_, fun _ => ⟨?_, ?_⟩⟩ <;>
          simp [safeFOpen, hrr]
  · intro fd ho hh
    cases ho
    cases fs <;> cases ir <;> cases fo <;>
      by_cases hrr : (optsArg.getD defaultFileOpts).requireRegularFile = true <;>
      simp_all [safeFOpen]

/-- Witness for C7: an open that succeeds on a non-regular target with the
default options is rejected with FileAccess, returns no handle and closes the
descriptor. -/
theorem c7_fopen_no_descriptor_leak_witness :
    (safeFOpen ⟨some 3, true, false, true⟩ none).handle = none ∧
    (safeFOpen ⟨some 3, true, false, true⟩ none).closedFd = true ∧
    (safeFOpen ⟨some 3, true, false, true⟩ none).errW = some .fileAccess := by
  have h := (c7_fopen_no_descriptor_leak ⟨some 3, true, false, true⟩ none).1
    (by decide) (by decide)
  exact ⟨h.1, (h.2 (by decide)).1, (h.2 (by decide)).2⟩

/-! ### Claim C8 -/

/-- Claim C8 (confirmed): releasing a handle obtained from allocation clears it
to the empty state and calls the allocator's `free` once; a second release on
the now-empty handle is a no-op — it performs no `free` and leaves the handle
empty, so `release(h); release(h)` is safe and the second call changes
nothing. -/
theorem c8_double_release_safe (size : Nat) (buf : List Nat)
    (halloc : (safeMalloc size).1 = some buf) :
    safeFree (some buf) = (none, true) ∧
    safeFree (safeFree (some buf)).1 = (none, false) := by
  exact ⟨rfl, rfl⟩

/-- Witness for C8 on a 4-byte allocation. -/
theorem c8_double_release_safe_witness :
    safeFree (some (List.replicate 4 0)) = (none, true) ∧
    safeFree (safeFree (some (List.replicate 4 0))).1 = (none, false) :=
  c8_double_release_safe 4 (List.replicate 4 0) (by decide)

/-! ### Claim C9 -/

/-- Claim C9 (confirmed): deleting with an empty new substring is governed by
the same formula.  With `count` counted occurrences, the call succeeds exactly
when `originalLength - count * oldLength < bufferCapacity`, reports that
length, and the resulting string content is the concatenation of the literal
chunks — every counted occurrence removed — even though the intermediate
`count * (newLength - oldLength)` term is computed in wrapping unsigned
`size_t` arithmetic. -/
theorem c9_replace_with_empty_new (buf old : List Nat) (strSize : Nat)
    (s : List Nat) (count : Nat)
    (hold : old ≠ [])
    (hs : s = buf.takeWhile (fun x => x ≠ 0))
    (hc : count = countOcc s old)
    (holdM : old.length ≤ sizeModulus)
    (hslen : s.length < sizeModulus)
    (hsize : strSize ≤ sizeMax - sizeofSizeT) :
    ((safeStrReplace buf strSize old []).ok = true ↔
      s.length - count * old.length < strSize) ∧
    (s.length - count * old.length < strSize →
      (safeStrReplace buf strSize old []).outLen = some (s.length - count * old.length)) ∧
    (s.length - count * old.length < strSize → 0 < count →
      ∃ chunks : List (List Nat), chunks.length = count + 1 ∧ joinWith old chunks = s ∧
        (safeStrReplace buf strSize old []).buf.takeWhile (fun x => x ≠ 0)
          = joinWith [] chunks ∧
        (joinWith [] chunks).length = s.length - count * old.length) := by
  have hm : s.length - count * old.length
      = s.length - count * old.length + count * ([] : List Nat).length := by simp
  have hsp := safeStrReplace_spec buf strSize old [] s count
    (s.length - count * old.length) hold hs hc hm holdM (by omega) hsize
  have hmul : count * old.length ≤ s.length := by
    rw [hc]; exact countOcc_mul_le s old hold
  refine ⟨?_, ?_, ?_⟩
  · constructor
    · intro hok
      by_contra hcap
      push_neg at hcap
      rw [hsp.1 hcap] at hok
      exact absurd hok (by simp)
    · intro hcap
      by_cases h0 : count = 0
      · rw [hsp.2.1 hcap h0]
      · rw [hsp.2.2 hcap (by omega)]
  · intro hcap
    by_cases h0 : count = 0
    · rw [hsp.2.1 hcap h0, h0]
      simp
    · rw [hsp.2.2 hcap (by omega)]
  · intro hcap hpos
    obtain ⟨chunks, hne, hlen, hjoin, hbuild⟩ := replace_decomp s old [] hold
    have hres : (replaceBuild s old []).length = s.length - count * old.length := by
      have := replaceBuild_length s old [] hold
      rw [← hc] at this
      simp at this
      omega
    have hnz : ∀ b ∈ replaceBuild s old [], b ≠ 0 := by
      intro b hb
      rcases replaceBuild_mem s old [] hold b hb with hbs | hbn
      · rw [hs] at hbs
        exact mem_content_ne_zero buf b hbs
      · exact absurd hbn (by simp)
    refine ⟨chunks, by rw [hc]; exact hlen, hjoin, ?_, by rw [← hbuild, hres]⟩
    rw [hsp.2.2 hcap hpos]
    show (replaceBuild s old [] ++ 0
        :: buf.drop (s.length - count * old.length + 1)).takeWhile (fun x => x ≠ 0)
      = joinWith [] chunks
    rw [takeWhile_append_zero (replaceBuild s old []) _ hnz, hbuild]

/-- Witness for C9: deleting "bc" from "abcabc" in a capacity-10 buffer
succeeds with the two occurrences removed and length 2 reported. -/
theorem c9_replace_with_empty_new_witness :
    (safeStrReplace [97, 98, 99, 97, 98, 99, 0, 0, 0, 0] 10 [98, 99] []).ok = true ∧
    (safeStrReplace [97, 98, 99, 97, 98, 99, 0, 0, 0, 0] 10 [98, 99] []).outLen = some 2 ∧
    (safeStrReplace [97, 98, 99, 97, 98, 99, 0, 0, 0, 0] 10 [98, 99] []).buf.takeWhile
      (fun x => x ≠ 0) = [97, 97] := by
  have h := c9_replace_with_empty_new [97, 98, 99, 97, 98, 99, 0, 0, 0, 0] [98, 99] 10
    [97, 98, 99, 97, 98, 99] 2 (by decide) (by decide) (by decide) (by decide)
    (by decide) (by decide)
  refine ⟨h.1.mpr (by decide), ?_, by decide⟩
  have h2 := h.2.1 (by decide)
  simpa using h2

/-! ### Claim C10 -/

/-- Claim C10 (confirmed): when the destination buffer holds no terminator
within its capacity, `SafeStrCat` fails with OutOfBounds before writing any
byte and leaves the destination unchanged: either the bounded scan of the
destination itself fails with OutOfBounds, or — when the byte just past the
capacity happens to be a terminator — the scan reports a length equal to the
whole capacity and the subsequent capacity check rejects the concatenation.
The source is never written.  The precondition violation surfaces as an error
return, not as a write. -/
theorem c10_cat_unterminated_dest (dest src : List Nat) (destSize : Nat)
    (hdlen : destSize ≤ dest.length)
    (hnz : (0 : Nat) ∉ dest.take destSize) :
    safeStrCat dest destSize src = ⟨false, dest, some .outOfBounds⟩ := by
  have hmem : ¬ (firstZero dest < destSize ∧ firstZero dest < dest.length) :=
    fun hc => hnz ((zero_mem_take_iff dest destSize).mpr hc)
  have hfl := firstZero_le_length dest
  have hge : destSize ≤ firstZero dest := by
    by_contra hc
    push_neg at hc
    exact hmem ⟨hc, by omega⟩
  by_cases heq : firstZero dest = destSize
  · have hdr : safeStrLen dest destSize = ⟨true, firstZero dest, none⟩ := by
      rw [safeStrLen_eq, if_pos (by omega)]
    rcases safeStrLen_cases (src ++ [0]) sizeMax with hsr | hsr
    · have hb : destSize ≤ firstZero dest + firstZero (src ++ [0]) := by omega
      simp [safeStrCat, hdr, hsr, hb]
    · simp [safeStrCat, hdr, hsr]
  · have hdr : safeStrLen dest destSize = ⟨false, destSize, some .outOfBounds⟩ := by
      rw [safeStrLen_eq, if_neg (by omega)]
    simp [safeStrCat, hdr]

/-- Witness for C10: a buffer "aab" with capacity 2 and no terminator in the
first two bytes; concatenation of "c" is rejected with OutOfBounds and the
buffer is untouched. -/
theorem c10_cat_unterminated_dest_witness :
    safeStrCat [97, 97, 98] 2 [99] = ⟨false, [97, 97, 98], some .outOfBounds⟩ :=
  c10_cat_unterminated_dest [97, 97, 98] [99] 2 (by decide) (by decide)
